import Mathlib

/-!
Shallow embedding of the fakeapi editing UI (src/src/App.tsx,
src/src/components/TabBar.tsx, and the two Sidebar variants in src/unnamed),
together with proofs about its persistence schema, validation boundary and
tab-state invariants.

JavaScript `JSON.parse` success on an arbitrary response-body string is a
platform primitive; the handlers below are parameterised by a predicate
`jsonOk : String → Bool` standing for it.  `JSON.stringify`/`JSON.parse` of a
whole project object are modelled at the JSON-value-tree level (`JVal`),
which is the standard bijection between JSON trees and their rendered text.
-/

namespace FakeApi

/-- `ServerSettings` interface from src/unnamed/part_000 (Sidebar):
`{ port: number; bindAddr: string; enableTls: boolean }`. -/
structure ServerSettings where
  port : Int
  bindAddr : String
  enableTls : Bool
deriving Repr, DecidableEq

/-- `TlsConfig` interface from src/unnamed/part_000 (Sidebar):
`{ certPath: string; keyPath: string }`. -/
structure TlsConfig where
  certPath : String
  keyPath : String
deriving Repr, DecidableEq

/-- `Endpoint` interface from src/src/App.tsx lines 7-14. -/
structure Endpoint where
  id : String
  method : String
  path : String
  status : Int
  delay : Int
  response : String
deriving Repr, DecidableEq

/-- `ProjectData` interface from src/src/App.tsx lines 16-22. -/
structure ProjectData where
  name : String
  lastSaved : String
  endpoints : List Endpoint
  settings : ServerSettings
  tlsConfig : Option TlsConfig
deriving Repr, DecidableEq

/-- `Tab` interface from src/src/App.tsx lines 24-31. -/
structure Tab where
  id : String
  name : String
  endpoints : List Endpoint
  settings : ServerSettings
  tlsConfig : Option TlsConfig
  isServerRunning : Bool
deriving Repr, DecidableEq

/-- `AppState` from src/src/App.tsx lines 33-36: the tab list plus the id of
the active tab. -/
structure AppState where
  tabs : List Tab
  activeTabId : String
deriving Repr, DecidableEq

/-! ### JSON value trees -/

/-- A JSON value tree, the output of `JSON.stringify` on a plain object (and
the result of `JSON.parse` on its rendering).  Numbers are modelled as
integers, which covers every numeric field of the project schema. -/
inductive JVal where
  | jnull : JVal
  | jbool : Bool → JVal
  | jnum : Int → JVal
  | jstr : String → JVal
  | jarr : List JVal → JVal
  | jobj : List (String × JVal) → JVal

/-- JavaScript property access `o[k]` on a parsed JSON object: the value of
the first member named `k` (member names are unique in every object built by
the app). -/
def lookupField (fields : List (String × JVal)) (k : String) : Option JVal :=
  (fields.find? (fun p => p.fst == k)).map Prod.snd

/-- Property access on a `JVal` that may not be an object. -/
def getField (v : JVal) (k : String) : Option JVal :=
  match v with
  | .jobj fields => lookupField fields k
  | _ => none

/-- The member names of a JSON object, in serialization order. -/
def objKeys (v : JVal) : List String :=
  match v with
  | .jobj fields => fields.map Prod.fst
  | _ => []

def asStr (v : JVal) : Option String :=
  match v with
  | .jstr s => some s
  | _ => none

def asNum (v : JVal) : Option Int :=
  match v with
  | .jnum n => some n
  | _ => none

def asBool (v : JVal) : Option Bool :=
  match v with
  | .jbool b => some b
  | _ => none

/-! ### Serialization, as performed by `handleSaveProject`
(src/src/App.tsx lines 468-482): `JSON.stringify(projectData)` where
`projectData` is the TypeScript-shaped object — settings keep the camelCase
member names `port`/`bindAddr`/`enableTls` and the TLS config keeps
`certPath`/`keyPath`; the snake_case conversion in the file is applied only
to the argument of the `set_project_state` backend call, never to the saved
file. -/

/-- JSON object produced for one endpoint (member order follows the
`Endpoint` object literal of src/src/App.tsx lines 210-217). -/
def encodeEndpoint (e : Endpoint) : JVal :=
  .jobj [("id", .jstr e.id), ("method", .jstr e.method), ("path", .jstr e.path),
    ("status", .jnum e.status), ("delay", .jnum e.delay), ("response", .jstr e.response)]

/-- JSON object produced for the `settings` member of a saved project:
the `ServerSettings` value is stringified as-is. -/
def encodeSettings (s : ServerSettings) : JVal :=
  .jobj [("port", .jnum s.port), ("bindAddr", .jstr s.bindAddr), ("enableTls", .jbool s.enableTls)]

/-- JSON value produced for the `tlsConfig` member of a saved project:
`null` when absent, otherwise the `TlsConfig` value stringified as-is. -/
def encodeTlsConfig (c : Option TlsConfig) : JVal :=
  match c with
  | none => .jnull
  | some c => .jobj [("certPath", .jstr c.certPath), ("keyPath", .jstr c.keyPath)]

/-- The JSON tree `JSON.stringify(projectData, null, 2)` renders in
`handleSaveProject` (src/src/App.tsx lines 468-482). -/
def encodeProjectData (p : ProjectData) : JVal :=
  .jobj [("name", .jstr p.name), ("lastSaved", .jstr p.lastSaved),
    ("endpoints", .jarr (p.endpoints.map encodeEndpoint)),
    ("settings", encodeSettings p.settings),
    ("tlsConfig", encodeTlsConfig p.tlsConfig)]

/-! ### Deserialization, as performed by `handleLoadProject`
(src/src/App.tsx lines 342-399): `JSON.parse(content)` followed by the typed
member accesses of the load path — `endpoints`, `name`, `lastSaved`,
`settings` with the `?? 3000` / `?? "127.0.0.1"` / `?? false` defaults of
lines 391-396, and `tlsConfig` taken as-is.  A shape that the load path
cannot consume (a member of the wrong kind) is a load failure (`none`),
matching the runtime throw that the surrounding `try` catches. -/

def decodeEndpoint (v : JVal) : Option Endpoint :=
  match v with
  | .jobj fields => do
    let id ← (lookupField fields "id").bind asStr
    let method ← (lookupField fields "method").bind asStr
    let path ← (lookupField fields "path").bind asStr
    let status ← (lookupField fields "status").bind asNum
    let delay ← (lookupField fields "delay").bind asNum
    let response ← (lookupField fields "response").bind asStr
    pure { id := id
           method := method
           path := path
           status := status
           delay := delay
           response := response }
  | _ => none

/-- The settings read of src/src/App.tsx lines 391-396: each member falls
back to its default when missing, and a missing or non-object `settings`
member yields all defaults. -/
def decodeSettings (v : Option JVal) : ServerSettings :=
  match v with
  | some (.jobj fields) =>
    { port := ((lookupField fields "port").bind asNum).getD 3000
      bindAddr := ((lookupField fields "bindAddr").bind asStr).getD "127.0.0.1"
      enableTls := ((lookupField fields "enableTls").bind asBool).getD false }
  | _ => { port := 3000, bindAddr := "127.0.0.1", enableTls := false }

def decodeTlsConfig (v : Option JVal) : Option (Option TlsConfig) :=
  match v with
  | some .jnull => some none
  | some (.jobj fields) => do
    let certPath ← (lookupField fields "certPath").bind asStr
    let keyPath ← (lookupField fields "keyPath").bind asStr
    pure (some { certPath := certPath, keyPath := keyPath })
  | _ => none

def decodeEndpointList : List JVal → Option (List Endpoint)
  | [] => some []
  | v :: vs => do
    let e ← decodeEndpoint v
    let rest ← decodeEndpointList vs
    pure (e :: rest)

def decodeProjectData (v : JVal) : Option ProjectData :=
  match v with
  | .jobj fields => do
    let name ← (lookupField fields "name").bind asStr
    let lastSaved ← (lookupField fields "lastSaved").bind asStr
    let endpoints ← (match lookupField fields "endpoints" with
      | some (.jarr xs) => decodeEndpointList xs
      | _ => none)
    let tlsConfig ← decodeTlsConfig (lookupField fields "tlsConfig")
    pure { name := name
           lastSaved := lastSaved
           endpoints := endpoints
           settings := decodeSettings (lookupField fields "settings")
           tlsConfig := tlsConfig }
  | _ => none

/-! ### Round-trip lemmas -/

theorem decodeEndpoint_encodeEndpoint (e : Endpoint) :
    decodeEndpoint (encodeEndpoint e) = some e := rfl

theorem decodeEndpointList_map_encodeEndpoint (es : List Endpoint) :
    decodeEndpointList (es.map encodeEndpoint) = some es := by
  induction es with
  | nil => rfl
  | cons e rest ih =>
    simp [decodeEndpointList, decodeEndpoint_encodeEndpoint, ih]

theorem decode_encode (p : ProjectData) :
    decodeProjectData (encodeProjectData p) = some p := by
  obtain ⟨name, lastSaved, endpoints, settings, tlsConfig⟩ := p
  simp only [decodeProjectData, encodeProjectData]
  simp only [lookupField, List.find?, encodeSettings]
  cases tlsConfig <;>
    simp [decodeEndpointList_map_encodeEndpoint, asStr, asNum, asBool,
      decodeSettings, decodeTlsConfig, encodeTlsConfig, lookupField, Option.bind]

/-! ### Endpoint validation, shared by `handleAdd` (src/src/App.tsx lines
181-207), the per-endpoint loop of `handleLoadProject` (lines 349-376) and
the identical loop of `handleSaveProject` (lines 439-466): path required,
path starts with `/`, status in 100..599, and a response body that is either
blank after trimming or accepted by `JSON.parse`. -/

/-- JavaScript `path.startsWith("/")`: the first character of the string is
`/` (kernel-computable model of the library call with a one-character
argument). -/
def startsWithSlash (s : String) : Bool :=
  match s.data with
  | [] => false
  | c :: _ => c == '/'

/-- JavaScript `String.prototype.trim()`: drop leading and trailing
whitespace (kernel-computable model of the library call). -/
def trimString (s : String) : String :=
  ⟨((s.data.dropWhile Char.isWhitespace).reverse.dropWhile Char.isWhitespace).reverse⟩

/-- The per-endpoint check loop of `handleLoadProject` / `handleSaveProject`:
`false` exactly when some endpoint triggers one of the early returns. -/
def validateEndpoints (jsonOk : String → Bool) : List Endpoint → Bool
  | [] => true
  | e :: rest =>
    if e.path = "" then false
    else if startsWithSlash e.path = false then false
    else if e.status < 100 ∨ e.status > 599 then false
    else if trimString e.response ≠ "" ∧ jsonOk e.response = false then false
    else validateEndpoints jsonOk rest

/-- The form fields `method`/`path`/`status`/`delay`/`response` read by
`handleAdd` from component state. -/
structure AddForm where
  method : String
  path : String
  status : Int
  delay : Int
  response : String
deriving Repr, DecidableEq

/-- `handleAdd` (src/src/App.tsx lines 181-264) restricted to its effect on
the `tabs` state: early-return on each failed validation, otherwise append
the new endpoint to the active tab only.  `newId` stands for the
`Date.now() + Math.random()` identifier of line 211; the backend sync on
line 250 does not touch `tabs`. -/
def handleAdd (jsonOk : String → Bool) (newId : String) (form : AddForm)
    (tabs : List Tab) (activeTabId : String) : List Tab :=
  if form.path = "" then tabs
  else if startsWithSlash form.path = false then tabs
  else if form.status < 100 ∨ form.status > 599 then tabs
  else if trimString form.response ≠ "" ∧ jsonOk form.response = false then tabs
  else
    let newEndpoint : Endpoint :=
      { id := newId
        method := form.method
        path := form.path
        status := form.status
        delay := form.delay
        response := form.response }
    tabs.map (fun tab =>
      if tab.id = activeTabId then
        { tab with endpoints := tab.endpoints ++ [newEndpoint] }
      else tab)

/-- `handleDelete` (src/src/App.tsx lines 266-275): filter the active tab's
endpoints by `e.id !== id`, leave every other tab alone. -/
def handleDelete (id : String) (tabs : List Tab) (activeTabId : String) : List Tab :=
  tabs.map (fun tab =>
    if tab.id = activeTabId then
      { tab with endpoints := tab.endpoints.filter (fun e => e.id != id) }
    else tab)

/-- The `onServerStateChange` handler passed to the Sidebar
(src/src/App.tsx lines 538-548): the active tab's flag becomes `isRunning`;
when starting (`isRunning = true`) every other tab's flag is forced to
`false`, when stopping the other tabs keep their flags. -/
def onServerStateChange (isRunning : Bool) (tabs : List Tab) (activeTabId : String) : List Tab :=
  tabs.map (fun tab =>
    if tab.id = activeTabId then
      { tab with isServerRunning := isRunning }
    else
      { tab with isServerRunning := if isRunning then false else tab.isServerRunning })

/-! ### Project load (src/src/App.tsx lines 342-425)

The `invoke("load_project")` result string is parsed by `JSON.parse` inside a
`try` block; a malformed string, or a shape the typed load path cannot
consume, throws into the `catch` and leaves every piece of state untouched.
That parse step is modelled by feeding the handler an `Option ProjectData`
(`none` for the failure case; the falsy-content branch of line 345 also
changes nothing and is covered by `none`).  The returned `Bool` records
whether the `set_project_state` backend call of line 417 was reached. -/

/-- Tab-name uniquification loop of src/src/App.tsx lines 378-384: starting
from the project's own name, append `" (counter)"` and bump the counter until
the name collides with no existing tab name.  The source `while` loop is
embedded with explicit fuel; `loadProjectName` supplies fuel that is proved
sufficient below. -/
def loadNameLoop (names : List String) (base : String) : Nat → Nat → String → String
  | 0, _, current => current
  | fuel + 1, counter, current =>
    if names.contains current then
      loadNameLoop names base fuel (counter + 1) (base ++ " (" ++ Nat.repr counter ++ ")")
    else current

def loadProjectName (names : List String) (base : String) : String :=
  loadNameLoop names base (names.length + 2) 1 base

def handleLoadProject (jsonOk : String → Bool) (parsed : Option ProjectData)
    (newTabId : String) (st : AppState) : AppState × Bool :=
  match parsed with
  | none => (st, false)
  | some projectData =>
    if validateEndpoints jsonOk projectData.endpoints = false then (st, false)
    else
      let projectName := loadProjectName (st.tabs.map Tab.name) projectData.name
      let newTab : Tab :=
        { id := newTabId
          name := projectName
          endpoints := projectData.endpoints
          settings :=
            { port := projectData.settings.port
              bindAddr := projectData.settings.bindAddr
              enableTls := projectData.settings.enableTls }
          tlsConfig := projectData.tlsConfig
          isServerRunning := false }
      ({ tabs := st.tabs ++ [newTab], activeTabId := newTabId }, true)

/-- `handleSaveProject` (src/src/App.tsx lines 435-491) restricted to the
data it hands to `invoke("save_project")`: `none` when some endpoint fails
the validation loop (early return, nothing written), otherwise the JSON tree
of `JSON.stringify(projectData, null, 2)` with `lastSaved` set to the
current time `now`. -/
def handleSaveProject (jsonOk : String → Bool) (activeTab : Tab) (now : String) : Option JVal :=
  if validateEndpoints jsonOk activeTab.endpoints = false then none
  else
    some (encodeProjectData
      { name := activeTab.name
        lastSaved := now
        endpoints := activeTab.endpoints
        settings := activeTab.settings
        tlsConfig := activeTab.tlsConfig })

/-! ### New project and tab rename -/

/-- Counter search of `handleNewProject` (src/src/App.tsx lines 285-292):
starting at 1, bump the counter while `"Untitled_" ++ counter` is taken.
Fuel-embedded `while` loop; `handleNewProjectName` supplies fuel proved
sufficient below. -/
def newNameLoop (names : List String) : Nat → Nat → Nat
  | 0, c => c
  | fuel + 1, c =>
    if names.contains ("Untitled_" ++ Nat.repr c) then newNameLoop names fuel (c + 1)
    else c

/-- Name chosen by `handleNewProject` (src/src/App.tsx lines 277-292):
`"Untitled"` when free, else the smallest-numbered `"Untitled_n"`. -/
def handleNewProjectName (names : List String) : String :=
  if names.contains "Untitled" then
    "Untitled_" ++ Nat.repr (newNameLoop names (names.length + 1) 1)
  else "Untitled"

/-- `handleNewProject` (src/src/App.tsx lines 277-307) restricted to its
effect on the app state: append a fresh default tab and activate it.
`newTabId` stands for the `Date.now()` id of line 295. -/
def handleNewProject (newTabId : String) (st : AppState) : AppState :=
  let newName := handleNewProjectName (st.tabs.map Tab.name)
  let newTab : Tab :=
    { id := newTabId
      name := newName
      endpoints := []
      settings := { port := 3000, bindAddr := "127.0.0.1", enableTls := false }
      tlsConfig := none
      isServerRunning := false }
  { tabs := st.tabs ++ [newTab], activeTabId := newTabId }

/-- `handleTabRename` (src/src/App.tsx lines 427-433). -/
def handleTabRename (tabs : List Tab) (tabId : String) (newName : String) : List Tab :=
  tabs.map (fun tab => if tab.id = tabId then { tab with name := newName } else tab)

/-- `handleNameSubmit` (src/src/components/TabBar.tsx lines 47-65) restricted
to its effect on the tab list: a blank trimmed name or a name already used by
another tab leaves the tabs unchanged, otherwise the tab is renamed via
`onTabRename = handleTabRename`. -/
def handleNameSubmit (tabs : List Tab) (tabId : String) (editingName : String) : List Tab :=
  let trimmedName := trimString editingName
  if trimmedName ≠ "" then
    if tabs.any (fun t => t.id != tabId && t.name == trimmedName) then tabs
    else handleTabRename tabs tabId trimmedName
  else tabs

/-! ### Server start (Sidebar variants and the spec-modelled backend) -/

/-- Disabled condition of the Start Server button in the Sidebar actually
mounted by App.tsx (src/unnamed/part_000 lines 355-362):
`disabled={isServerRunning}` — the TLS state plays no role. -/
def startDisabledCurrent (isServerRunning : Bool) : Bool := isServerRunning

/-- Disabled condition of the Start Server button in the legacy Sidebar
variant (src/unnamed/part_001 lines 333-341), shown while the server is not
running: `disabled={enableTls && !tlsConfigured}`. -/
def startDisabledLegacy (enableTls tlsConfigured : Bool) : Bool :=
  enableTls && !tlsConfigured

/-- Backend-visible server state: the `running` flag reported by
`get_server_status` plus the TLS config held by the project state store. -/
structure CoreState where
  running : Bool
  tlsConfig : Option TlsConfig
deriving Repr, DecidableEq

/-- Modelled from the spec: the `start_server` backend command is not under
src/ (only its Sidebar callers are).  Per spec sections 4.5 and 8
(Scenario D), a start with TLS enabled resolves a cert/key pair from the
current project state first; absence of a TlsConfig aborts the transition
with a TLS configuration failure and the lifecycle stays Stopped
(`{running:false}`); otherwise the bind succeeds and the server runs. -/
def startServer (enableTls : Bool) (st : CoreState) : CoreState × Except String Unit :=
  if enableTls then
    match st.tlsConfig with
    | none => ({ st with running := false }, Except.error "TLS configuration failure")
    | some _ => ({ st with running := true }, Except.ok ())
  else ({ st with running := true }, Except.ok ())

/-- `handleStartServer` of src/unnamed/part_000 (lines 145-183), restricted
to the `isRunning` flag it reports through `onServerStateChange`: `true`
after a successful `start_server`, `false` when the invoke threw and the
`catch` block ran. -/
def handleStartServerUiRunning (startResult : Except String Unit) : Bool :=
  match startResult with
  | Except.ok _ => true
  | Except.error _ => false

/-! ### Decimal rendering is injective

The tab-name loops compare candidate names built with `Nat.repr`; their
correctness needs that distinct counters give distinct name strings.  We
prove `Nat.repr` injective by folding the rendered digits back into the
number. -/

def digitVal (c : Char) : Nat := c.toNat - 48

def charsVal (l : List Char) (acc : Nat) : Nat :=
  l.foldl (fun a c => a * 10 + digitVal c) acc

theorem digitVal_digitChar : ∀ m < 10, digitVal (Nat.digitChar m) = m := by decide

theorem charsVal_toDigitsCore (f : Nat) :
    ∀ (n : Nat) (l : List Char) (acc : Nat), n < 10 ^ (f + 1) →
      ∃ e, 1 ≤ e ∧ n < 10 ^ e ∧
        charsVal (Nat.toDigitsCore 10 (f + 1) n l) acc = charsVal l (acc * 10 ^ e + n) := by
  induction f with
  | zero =>
    intro n l acc hn
    have hlt : n < 10 := by simpa using hn
    refine ⟨1, le_refl 1, by simpa using hn, ?_⟩
    have hdiv : n / 10 = 0 := Nat.div_eq_of_lt hlt
    have hmod : n % 10 = n := Nat.mod_eq_of_lt hlt
    simp [Nat.toDigitsCore, hdiv, charsVal, hmod, digitVal_digitChar n hlt]
  | succ f ih =>
    intro n l acc hn
    by_cases hdiv : n / 10 = 0
    · have hlt : n < 10 := by
        have := Nat.div_add_mod n 10
        have hm : n % 10 < 10 := Nat.mod_lt n (by norm_num)
        omega
      refine ⟨1, le_refl 1, by simpa using hlt, ?_⟩
      have hmod : n % 10 = n := Nat.mod_eq_of_lt hlt
      simp [Nat.toDigitsCore, hdiv, charsVal, hmod, digitVal_digitChar n hlt]
    · have hstep : Nat.toDigitsCore 10 (f + 1 + 1) n l =
          Nat.toDigitsCore 10 (f + 1) (n / 10) (Nat.digitChar (n % 10) :: l) := by
        simp [Nat.toDigitsCore, hdiv]
      have hlt : n / 10 < 10 ^ (f + 1) := by
        have h10 : 0 < 10 := by norm_num
        rw [Nat.div_lt_iff_lt_mul h10]
        calc n < 10 ^ (f + 1 + 1) := hn
          _ = 10 ^ (f + 1) * 10 := by ring
      obtain ⟨e, he1, he2, he3⟩ := ih (n / 10) (Nat.digitChar (n % 10) :: l) acc hlt
      refine ⟨e + 1, by omega, ?_, ?_⟩
      · have : n < 10 ^ e * 10 := by
          have := Nat.div_add_mod n 10
          have hm : n % 10 < 10 := Nat.mod_lt n (by norm_num)
          nlinarith [he2]
        calc n < 10 ^ e * 10 := this
          _ = 10 ^ (e + 1) := by ring
      · rw [hstep, he3]
        have hm : n % 10 < 10 := Nat.mod_lt n (by norm_num)
        have hrecomb : (acc * 10 ^ e + n / 10) * 10 + n % 10 = acc * 10 ^ (e + 1) + n := by
          have := Nat.div_add_mod n 10
          ring_nf
          omega
        simp [charsVal, digitVal_digitChar (n % 10) hm, hrecomb]

theorem charsVal_repr (n : Nat) : charsVal (Nat.repr n).data 0 = n := by
  have hdata : (Nat.repr n).data = Nat.toDigitsCore 10 (n + 1) n [] := rfl
  have hn : n < 10 ^ (n + 1) := by
    calc n < 10 ^ n := Nat.lt_pow_self (by norm_num) n
      _ ≤ 10 ^ (n + 1) := Nat.pow_le_pow_right (by norm_num) (Nat.le_succ n)
  obtain ⟨e, -, -, h3⟩ := charsVal_toDigitsCore n n [] 0 hn
  rw [hdata, h3]
  simp [charsVal]

theorem repr_injective : Function.Injective Nat.repr := by
  intro a b h
  have ha := charsVal_repr a
  rw [h, charsVal_repr b] at ha
  exact ha.symm

theorem string_append_right_injective (s : String) :
    Function.Injective (fun t => s ++ t) := by
  intro a b h
  apply String.ext
  have := congrArg String.data h
  simp only [String.data_append] at this
  exact List.append_cancel_left this

theorem string_append_left_injective (t : String) :
    Function.Injective (fun s => s ++ t) := by
  intro a b h
  apply String.ext
  have := congrArg String.data h
  simp only [String.data_append] at this
  exact List.append_cancel_right this

/-! ### Pigeonhole: some candidate name in a long enough run is unused -/

theorem exists_fresh (names : List String) (f : Nat → String)
    (hf : Function.Injective f) (c : Nat) :
    ∃ k, k ≤ names.length ∧ names.contains (f (c + k)) = false := by
  by_contra hcon
  push_neg at hcon
  have hmem : ∀ k ≤ names.length, f (c + k) ∈ names := by
    intro k hk
    have := hcon k hk
    have hcontains : names.contains (f (c + k)) = true := by
      cases h : names.contains (f (c + k)) with
      | false => exact absurd h this
      | true => rfl
    simpa [List.contains, List.elem_iff] using hcontains
  set l : List String := (List.range (names.length + 1)).map (fun k => f (c + k)) with hl
  have hnodup : l.Nodup := by
    refine List.Nodup.map ?_ (List.nodup_range _)
    intro i j hij
    have := hf hij
    omega
  have hsub : l ⊆ names := by
    intro s hs
    rw [hl] at hs
    simp only [List.mem_map, List.mem_range] at hs
    obtain ⟨k, hk, rfl⟩ := hs
    exact hmem k (by omega)
  have hle : l.length ≤ names.length :=
    (List.subperm_of_subset hnodup hsub).length_le
  rw [hl] at hle
  simp at hle

theorem untitled_injective : Function.Injective (fun c => "Untitled_" ++ Nat.repr c) :=
  fun _ _ h => repr_injective (string_append_right_injective "Untitled_" h)

theorem loadCand_injective (base : String) :
    Function.Injective (fun c => base ++ " (" ++ Nat.repr c ++ ")") := by
  intro a b h
  have h1 : base ++ " (" ++ Nat.repr a = base ++ " (" ++ Nat.repr b :=
    string_append_left_injective ")" h
  exact repr_injective (string_append_right_injective (base ++ " (") h1)

theorem newNameLoop_succ_pos (names : List String) (fuel c : Nat)
    (h : names.contains ("Untitled_" ++ Nat.repr c) = true) :
    newNameLoop names (fuel + 1) c = newNameLoop names fuel (c + 1) := by
  show (if names.contains ("Untitled_" ++ Nat.repr c) then newNameLoop names fuel (c + 1)
    else c) = _
  rw [h]
  rfl

theorem newNameLoop_succ_neg (names : List String) (fuel c : Nat)
    (h : names.contains ("Untitled_" ++ Nat.repr c) = false) :
    newNameLoop names (fuel + 1) c = c := by
  show (if names.contains ("Untitled_" ++ Nat.repr c) then newNameLoop names fuel (c + 1)
    else c) = _
  rw [h]
  rfl

theorem loadNameLoop_succ_pos (names : List String) (base : String) (fuel counter : Nat)
    (current : String) (h : names.contains current = true) :
    loadNameLoop names base (fuel + 1) counter current =
      loadNameLoop names base fuel (counter + 1) (base ++ " (" ++ Nat.repr counter ++ ")") := by
  show (if names.contains current then
    loadNameLoop names base fuel (counter + 1) (base ++ " (" ++ Nat.repr counter ++ ")")
    else current) = _
  rw [h]
  rfl

theorem loadNameLoop_succ_neg (names : List String) (base : String) (fuel counter : Nat)
    (current : String) (h : names.contains current = false) :
    loadNameLoop names base (fuel + 1) counter current = current := by
  show (if names.contains current then
    loadNameLoop names base fuel (counter + 1) (base ++ " (" ++ Nat.repr counter ++ ")")
    else current) = _
  rw [h]
  rfl

/-- The counter loop of `handleNewProject` returns the smallest counter at or
above its start whose candidate name is unused, provided some candidate
within the fuel budget is unused. -/
theorem newNameLoop_spec (names : List String) :
    ∀ (fuel c : Nat),
      (∃ k, k + 1 ≤ fuel ∧ names.contains ("Untitled_" ++ Nat.repr (c + k)) = false) →
      c ≤ newNameLoop names fuel c ∧
      names.contains ("Untitled_" ++ Nat.repr (newNameLoop names fuel c)) = false ∧
      ∀ j, c ≤ j → j < newNameLoop names fuel c →
        names.contains ("Untitled_" ++ Nat.repr j) = true := by
  intro fuel
  induction fuel with
  | zero =>
    rintro c ⟨k, hk, -⟩
    omega
  | succ fuel ih =>
    intro c hex
    by_cases h : names.contains ("Untitled_" ++ Nat.repr c) = true
    · have hres : newNameLoop names (fuel + 1) c = newNameLoop names fuel (c + 1) :=
        newNameLoop_succ_pos names fuel c h
      obtain ⟨k, hk, hfresh⟩ := hex
      have hk0 : k ≠ 0 := by
        rintro rfl
        rw [Nat.add_zero] at hfresh
        rw [h] at hfresh
        cases hfresh
      obtain ⟨k', rfl⟩ : ∃ k', k = k' + 1 := ⟨k - 1, by omega⟩
      have hex' : ∃ k2, k2 + 1 ≤ fuel ∧
          names.contains ("Untitled_" ++ Nat.repr (c + 1 + k2)) = false := by
        refine ⟨k', by omega, ?_⟩
        rw [show c + 1 + k' = c + (k' + 1) by omega]
        exact hfresh
      obtain ⟨h1, h2, h3⟩ := ih (c + 1) hex'
      rw [hres]
      refine ⟨by omega, h2, ?_⟩
      intro j hj1 hj2
      rcases Nat.eq_or_lt_of_le hj1 with rfl | hlt
      · exact h
      · exact h3 j hlt hj2
    · have hfalse : names.contains ("Untitled_" ++ Nat.repr c) = false := by
        simpa using h
      have hres : newNameLoop names (fuel + 1) c = c :=
        newNameLoop_succ_neg names fuel c hfalse
      rw [hres]
      exact ⟨le_refl c, hfalse, fun j hj1 hj2 => absurd hj1 (by omega)⟩

/-- The rename loop of `handleLoadProject` returns a name unused among the
existing tab names, provided the current candidate or some numbered candidate
within the fuel budget is unused. -/
theorem loadNameLoop_fresh (names : List String) (base : String) :
    ∀ (fuel counter : Nat) (current : String),
      (names.contains current = false ∨
        ∃ i, i + 2 ≤ fuel ∧
          names.contains (base ++ " (" ++ Nat.repr (counter + i) ++ ")") = false) →
      names.contains (loadNameLoop names base fuel counter current) = false := by
  intro fuel
  induction fuel with
  | zero =>
    intro counter current h
    rcases h with h | ⟨i, hi, -⟩
    · exact h
    · omega
  | succ fuel ih =>
    intro counter current h
    by_cases hcur : names.contains current = true
    · have hres : loadNameLoop names base (fuel + 1) counter current =
          loadNameLoop names base fuel (counter + 1)
            (base ++ " (" ++ Nat.repr counter ++ ")") :=
        loadNameLoop_succ_pos names base fuel counter current hcur
      rw [hres]
      apply ih
      rcases h with h | ⟨i, hi, hfresh⟩
      · rw [hcur] at h
        cases h
      · cases i with
        | zero =>
          left
          rw [Nat.add_zero] at hfresh
          exact hfresh
        | succ i' =>
          right
          refine ⟨i', by omega, ?_⟩
          rw [show counter + 1 + i' = counter + (i' + 1) by omega]
          exact hfresh
    · have hfalse : names.contains current = false := by simpa using hcur
      rw [loadNameLoop_succ_neg names base fuel counter current hfalse]
      exact hfalse

/-- The name picked when loading a project collides with no existing tab
name. -/
theorem loadProjectName_fresh (names : List String) (base : String) :
    names.contains (loadProjectName names base) = false := by
  unfold loadProjectName
  apply loadNameLoop_fresh
  by_cases hb : names.contains base = true
  · right
    obtain ⟨k, hk, hfresh⟩ :=
      exists_fresh names (fun c => base ++ " (" ++ Nat.repr c ++ ")") (loadCand_injective base) 1
    exact ⟨k, by omega, hfresh⟩
  · left
    simpa using hb

/-- The name picked when loading keeps the project's own name whenever it is
not already a tab name. -/
theorem loadProjectName_base (names : List String) (base : String)
    (hb : names.contains base = false) : loadProjectName names base = base := by
  unfold loadProjectName
  exact loadNameLoop_succ_neg names base (names.length + 1) 1 base hb

/-- Full characterization of the new-project name: `"Untitled"` when free,
otherwise `"Untitled_n"` for the smallest `n ≥ 1` whose name is free; in
either case the chosen name is fresh. -/
theorem handleNewProjectName_spec (names : List String) :
    (names.contains "Untitled" = false → handleNewProjectName names = "Untitled") ∧
    names.contains (handleNewProjectName names) = false ∧
    (names.contains "Untitled" = true →
      ∃ m, 1 ≤ m ∧ handleNewProjectName names = "Untitled_" ++ Nat.repr m ∧
        names.contains ("Untitled_" ++ Nat.repr m) = false ∧
        ∀ j, 1 ≤ j → j < m → names.contains ("Untitled_" ++ Nat.repr j) = true) := by
  by_cases h : names.contains "Untitled" = true
  · have hex : ∃ k, k + 1 ≤ names.length + 1 ∧
        names.contains ("Untitled_" ++ Nat.repr (1 + k)) = false := by
      obtain ⟨k, hk, hfresh⟩ :=
        exists_fresh names (fun c => "Untitled_" ++ Nat.repr c) untitled_injective 1
      exact ⟨k, by omega, hfresh⟩
    obtain ⟨h1, h2, h3⟩ := newNameLoop_spec names (names.length + 1) 1 hex
    have hval : handleNewProjectName names =
        "Untitled_" ++ Nat.repr (newNameLoop names (names.length + 1) 1) := by
      show (if names.contains "Untitled" then
        "Untitled_" ++ Nat.repr (newNameLoop names (names.length + 1) 1)
        else "Untitled") = _
      rw [h]
      rfl
    refine ⟨fun hc => absurd h (by rw [hc]; exact Bool.false_ne_true), ?_, fun _ => ?_⟩
    · rw [hval]
      exact h2
    · exact ⟨newNameLoop names (names.length + 1) 1, h1, hval, h2, h3⟩
  · have hfalse : names.contains "Untitled" = false := by simpa using h
    have hval : handleNewProjectName names = "Untitled" := by
      show (if names.contains "Untitled" then
        "Untitled_" ++ Nat.repr (newNameLoop names (names.length + 1) 1)
        else "Untitled") = _
      rw [hfalse]
      rfl
    refine ⟨fun _ => hval, ?_, fun hc => absurd hc (by rw [hfalse]; exact Bool.false_ne_true)⟩
    rw [hval]
    exact hfalse

/-! ### Preservation of pairwise-distinct tab names -/

theorem not_mem_of_contains_false {names : List String} {a : String}
    (h : names.contains a = false) : a ∉ names := by
  intro hm
  have : names.contains a = true := by
    simpa [List.contains, List.elem_iff] using hm
  rw [h] at this
  cases this

theorem nodup_append_fresh {names : List String} {a : String}
    (hnodup : names.Nodup) (hfresh : a ∉ names) : (names ++ [a]).Nodup := by
  rw [List.nodup_append]
  refine ⟨hnodup, List.nodup_singleton a, ?_⟩
  intro x hx hxa
  rw [List.mem_singleton] at hxa
  exact hfresh (hxa ▸ hx)

theorem rename_names (tabs : List Tab) (tabId newName : String) :
    (handleTabRename tabs tabId newName).map Tab.name =
      tabs.map (fun tab => if tab.id = tabId then newName else tab.name) := by
  simp only [handleTabRename, List.map_map]
  apply List.map_congr_left
  intro t _
  by_cases ht : t.id = tabId
  · simp [Function.comp, ht]
  · simp [Function.comp, ht]

theorem nodup_names_update (tabId newName : String) :
    ∀ tabs : List Tab,
      (tabs.map Tab.id).Nodup → (tabs.map Tab.name).Nodup →
      (∀ t ∈ tabs, t.id ≠ tabId → t.name ≠ newName) →
      (tabs.map (fun tab => if tab.id = tabId then newName else tab.name)).Nodup := by
  intro tabs
  induction tabs with
  | nil =>
    intro _ _ _
    simp
  | cons t rest ih =>
    intro hids hnames hfresh
    simp only [List.map_cons, List.nodup_cons] at hids hnames ⊢
    obtain ⟨hid_nm, hids'⟩ := hids
    obtain ⟨hname_nm, hnames'⟩ := hnames
    have hfresh' : ∀ u ∈ rest, u.id ≠ tabId → u.name ≠ newName :=
      fun u hu => hfresh u (List.mem_cons_of_mem t hu)
    refine ⟨?_, ih hids' hnames' hfresh'⟩
    by_cases ht : t.id = tabId
    · rw [if_pos ht]
      intro hmem
      simp only [List.mem_map] at hmem
      obtain ⟨u, hu, hgu⟩ := hmem
      by_cases hu_id : u.id = tabId
      · apply hid_nm
        have : u.id ∈ rest.map Tab.id := List.mem_map_of_mem Tab.id hu
        rwa [hu_id, ← ht] at this
      · rw [if_neg hu_id] at hgu
        exact hfresh' u hu hu_id hgu
    · rw [if_neg ht]
      intro hmem
      simp only [List.mem_map] at hmem
      obtain ⟨u, hu, hgu⟩ := hmem
      by_cases hu_id : u.id = tabId
      · rw [if_pos hu_id] at hgu
        exact hfresh t (List.mem_cons_self t rest) ht hgu.symm
      · rw [if_neg hu_id] at hgu
        apply hname_nm
        exact hgu ▸ List.mem_map_of_mem Tab.name hu

theorem handleNameSubmit_nodup (tabs : List Tab) (tabId editingName : String)
    (hids : (tabs.map Tab.id).Nodup) (hnames : (tabs.map Tab.name).Nodup) :
    ((handleNameSubmit tabs tabId editingName).map Tab.name).Nodup := by
  show ((if trimString editingName ≠ "" then
      if tabs.any (fun t => t.id != tabId && t.name == trimString editingName) then tabs
      else handleTabRename tabs tabId (trimString editingName)
    else tabs).map Tab.name).Nodup
  by_cases htrim : trimString editingName ≠ ""
  · rw [if_pos htrim]
    by_cases hdup : tabs.any (fun t => t.id != tabId && t.name == trimString editingName) = true
    · rw [if_pos hdup]
      exact hnames
    · rw [if_neg hdup]
      have hfresh : ∀ t ∈ tabs, t.id ≠ tabId → t.name ≠ trimString editingName := by
        intro t ht hid heq
        apply hdup
        rw [List.any_eq_true]
        refine ⟨t, ht, ?_⟩
        simp [hid, heq]
      rw [rename_names]
      exact nodup_names_update tabId (trimString editingName) tabs hids hnames hfresh
  · rw [if_neg htrim]
    exact hnames

/-! ### Concrete fixtures used by witnesses and counterexamples -/

def sampleSettings : ServerSettings :=
  { port := 3000, bindAddr := "127.0.0.1", enableTls := false }

def sampleTls : TlsConfig := { certPath := "c.pem", keyPath := "k.pem" }

def sampleEndpoint : Endpoint :=
  { id := "e1", method := "GET", path := "/api/users", status := 200, delay := 0, response := "" }

def sampleTab : Tab :=
  { id := "t1"
    name := "Untitled"
    endpoints := [sampleEndpoint]
    settings := sampleSettings
    tlsConfig := some sampleTls
    isServerRunning := false }

def sampleProject : ProjectData :=
  { name := "P"
    lastSaved := "2024-01-01T00:00:00Z"
    endpoints := [sampleEndpoint]
    settings := sampleSettings
    tlsConfig := some sampleTls }

/-! ### Claims -/

/-- Claim C1, counterexample: the JSON written by `handleSaveProject` keeps
the camelCase member names of the TypeScript interfaces — its `settings`
object has members `port`/`bindAddr`/`enableTls` and no `bind_addr` or
`enable_tls`, and its `tlsConfig` object has `certPath`/`keyPath` and no
`cert_path` — so the saved file does not carry the snake_case persisted
schema the claim states. -/
theorem claim_C1_cex :
    ((handleSaveProject (fun _ => true) sampleTab "2024-01-01T00:00:00Z").map
      (fun v => (getField v "settings").map objKeys)) =
      some (some ["port", "bindAddr", "enableTls"]) ∧
    ((handleSaveProject (fun _ => true) sampleTab "2024-01-01T00:00:00Z").map
      (fun v => (getField v "settings").bind (fun s => getField s "bind_addr"))) =
      some none ∧
    ((handleSaveProject (fun _ => true) sampleTab "2024-01-01T00:00:00Z").map
      (fun v => (getField v "settings").bind (fun s => getField s "enable_tls"))) =
      some none ∧
    ((handleSaveProject (fun _ => true) sampleTab "2024-01-01T00:00:00Z").map
      (fun v => (getField v "tlsConfig").map objKeys)) =
      some (some ["certPath", "keyPath"]) ∧
    ((handleSaveProject (fun _ => true) sampleTab "2024-01-01T00:00:00Z").map
      (fun v => (getField v "tlsConfig").bind (fun s => getField s "cert_path"))) =
      some none :=
  ⟨rfl, rfl, rfl, rfl, rfl⟩

/-- Claim C1, amended: every project saved by `handleSaveProject` serializes
with top-level members `name`, `lastSaved`, `endpoints`, `settings`,
`tlsConfig`, where `settings` is `{port, bindAddr, enableTls}` and
`tlsConfig` is `{certPath, keyPath}` or `null` — the camelCase TypeScript
member names, not the snake_case names used for the `set_project_state`
backend call — and this shape round-trips exactly through save and load. -/
theorem claim_C1 (jsonOk : String → Bool) (tab : Tab) (now : String) (v : JVal)
    (h : handleSaveProject jsonOk tab now = some v) :
    objKeys v = ["name", "lastSaved", "endpoints", "settings", "tlsConfig"] ∧
    getField v "settings" = some (encodeSettings tab.settings) ∧
    objKeys (encodeSettings tab.settings) = ["port", "bindAddr", "enableTls"] ∧
    getField v "tlsConfig" = some (encodeTlsConfig tab.tlsConfig) ∧
    decodeProjectData v = some
      { name := tab.name
        lastSaved := now
        endpoints := tab.endpoints
        settings := tab.settings
        tlsConfig := tab.tlsConfig } := by
  unfold handleSaveProject at h
  by_cases hval : validateEndpoints jsonOk tab.endpoints = false
  · rw [if_pos hval] at h
    cases h
  · rw [if_neg hval] at h
    have hv := (Option.some.injEq _ _).mp h
    subst hv
    exact ⟨rfl, rfl, rfl, rfl, decode_encode _⟩

theorem claim_C1_witness :
    objKeys (encodeSettings sampleTab.settings) = ["port", "bindAddr", "enableTls"] :=
  (claim_C1 (fun _ => true) sampleTab "2024-01-01T00:00:00Z"
    (encodeProjectData
      { name := sampleTab.name
        lastSaved := "2024-01-01T00:00:00Z"
        endpoints := sampleTab.endpoints
        settings := sampleTab.settings
        tlsConfig := sampleTab.tlsConfig }) rfl).2.2.1

/-- Claim C2: serializing a `ProjectData` value as `handleSaveProject` does
(`JSON.stringify` of the project object) and deserializing the result as
`handleLoadProject` does (`JSON.parse` plus the load path's member reads)
yields a value equal in all fields to the original. -/
theorem claim_C2 (p : ProjectData) :
    decodeProjectData (encodeProjectData p) = some p :=
  decode_encode p

/-- Claim C3: load fails atomically — when the loaded content is malformed
(no parse result) or any endpoint fails the per-endpoint validation,
`handleLoadProject` adds no tab, leaves the active tab unchanged, and never
reaches the `set_project_state` call (the returned flag is `false`). -/
theorem claim_C3 (jsonOk : String → Bool) (parsed : Option ProjectData)
    (newTabId : String) (st : AppState)
    (hbad : parsed = none ∨
      ∃ p, parsed = some p ∧ validateEndpoints jsonOk p.endpoints = false) :
    handleLoadProject jsonOk parsed newTabId st = (st, false) := by
  rcases hbad with rfl | ⟨p, rfl, hval⟩
  · rfl
  · show (if validateEndpoints jsonOk p.endpoints = false then (st, false) else _) = _
    rw [if_pos hval]

def badPathProject : ProjectData :=
  { name := "Bad"
    lastSaved := "2024-01-01T00:00:00Z"
    endpoints := [{ id := "e9"
                    method := "GET"
                    path := "nope"
                    status := 200
                    delay := 0
                    response := "" }]
    settings := sampleSettings
    tlsConfig := none }

def sampleState : AppState := { tabs := [sampleTab], activeTabId := "t1" }

theorem claim_C3_witness :
    validateEndpoints (fun _ => true) badPathProject.endpoints = false ∧
    handleLoadProject (fun _ => true) (some badPathProject) "9" sampleState =
      (sampleState, false) :=
  ⟨rfl, claim_C3 (fun _ => true) (some badPathProject) "9" sampleState
    (Or.inr ⟨badPathProject, rfl, rfl⟩)⟩

/-- Claim C4: `handleAdd` validates at the control boundary — whenever the
path is empty, does not start with `/`, the status is outside 100..599, or a
non-blank response is rejected by `JSON.parse`, no endpoint is added and the
tabs state is returned unchanged. -/
theorem claim_C4 (jsonOk : String → Bool) (newId : String) (form : AddForm)
    (tabs : List Tab) (activeTabId : String)
    (hfail : form.path = "" ∨ startsWithSlash form.path = false ∨
      form.status < 100 ∨ form.status > 599 ∨
      (trimString form.response ≠ "" ∧ jsonOk form.response = false)) :
    handleAdd jsonOk newId form tabs activeTabId = tabs := by
  unfold handleAdd
  split_ifs with h1 h2 h3 h4
  · rfl
  · rfl
  · rfl
  · rfl
  · exfalso
    rcases hfail with h | h | h | h | h
    · exact h1 h
    · exact h2 h
    · exact h3 (Or.inl h)
    · exact h3 (Or.inr h)
    · exact h4 h

def badStatusForm : AddForm :=
  { method := "GET", path := "/x", status := 700, delay := 0, response := "" }

theorem claim_C4_witness :
    badStatusForm.status > 599 ∧
    handleAdd (fun _ => true) "n1" badStatusForm [sampleTab] "t1" = [sampleTab] :=
  ⟨by decide, claim_C4 (fun _ => true) "n1" badStatusForm [sampleTab] "t1"
    (Or.inr (Or.inr (Or.inr (Or.inl (by decide)))))⟩

/-- Acceptance path of `handleAdd`: when every boundary check passes, the new
endpoint is appended after all existing endpoints of the active tab and every
other tab is untouched. -/
theorem handleAdd_valid (jsonOk : String → Bool) (newId : String) (form : AddForm)
    (tabs : List Tab) (activeTabId : String)
    (hpath : form.path ≠ "") (hslash : startsWithSlash form.path = true)
    (hlo : 100 ≤ form.status) (hhi : form.status ≤ 599)
    (hresp : trimString form.response = "" ∨ jsonOk form.response = true) :
    handleAdd jsonOk newId form tabs activeTabId =
      tabs.map (fun tab =>
        if tab.id = activeTabId then
          { tab with endpoints := tab.endpoints ++
              [{ id := newId
                 method := form.method
                 path := form.path
                 status := form.status
                 delay := form.delay
                 response := form.response }] }
        else tab) := by
  have h2 : ¬startsWithSlash form.path = false := by simp [hslash]
  have h3 : ¬(form.status < 100 ∨ form.status > 599) := by omega
  have h4 : ¬(trimString form.response ≠ "" ∧ jsonOk form.response = false) := by
    rcases hresp with h | h
    · exact fun hc => hc.1 h
    · intro hc
      rw [h] at hc
      exact absurd hc.2 (by simp)
  unfold handleAdd
  rw [if_neg hpath, if_neg h2, if_neg h3, if_neg h4]

def negDelayEndpoint : Endpoint :=
  { id := "e2", method := "GET", path := "/slow", status := 200, delay := -5, response := "" }

def negDelayForm : AddForm :=
  { method := "GET", path := "/slow", status := 200, delay := -5, response := "" }

def emptyTab : Tab :=
  { id := "t1"
    name := "Untitled"
    endpoints := []
    settings := sampleSettings
    tlsConfig := none
    isServerRunning := false }

/-- Claim C5, counterexample: neither boundary checks the delay — an
endpoint with `delay = -5` passes the per-endpoint validation used by
`handleLoadProject`, and `handleAdd` accepts a form with `delay = -5` and
appends the endpoint with the negative delay intact. -/
theorem claim_C5_cex :
    validateEndpoints (fun _ => true) [negDelayEndpoint] = true ∧
    negDelayEndpoint.delay < 0 ∧
    handleAdd (fun _ => true) "e2" negDelayForm [emptyTab] "t1" =
      [{ emptyTab with endpoints := [negDelayEndpoint] }] := by
  refine ⟨rfl, by decide, by decide⟩

/-- Claim C5, amended: the control boundary validates path, status code and
response JSON but never the delay — the per-endpoint verdict is unchanged
when every delay is replaced by an arbitrary value, and `handleAdd` accepts
any delay (negative included) whenever the other checks pass, storing it
unchanged. -/
theorem claim_C5 (jsonOk : String → Bool) (es : List Endpoint) (d : Int)
    (newId : String) (form : AddForm) (tabs : List Tab) (activeTabId : String)
    (hpath : form.path ≠ "") (hslash : startsWithSlash form.path = true)
    (hlo : 100 ≤ form.status) (hhi : form.status ≤ 599)
    (hresp : trimString form.response = "" ∨ jsonOk form.response = true) :
    validateEndpoints jsonOk (es.map (fun e => { e with delay := d })) =
      validateEndpoints jsonOk es ∧
    handleAdd jsonOk newId form tabs activeTabId =
      tabs.map (fun tab =>
        if tab.id = activeTabId then
          { tab with endpoints := tab.endpoints ++
              [{ id := newId
                 method := form.method
                 path := form.path
                 status := form.status
                 delay := form.delay
                 response := form.response }] }
        else tab) := by
  constructor
  · induction es with
    | nil => rfl
    | cons e rest ih =>
      obtain ⟨eid, em, ep, est, ed, er⟩ := e
      simp only [List.map_cons, validateEndpoints]
      rw [ih]
  · exact handleAdd_valid jsonOk newId form tabs activeTabId hpath hslash hlo hhi hresp

theorem claim_C5_witness :
    negDelayForm.path ≠ "" ∧ negDelayForm.delay < 0 ∧
    handleAdd (fun _ => true) "e2" negDelayForm [emptyTab] "t1" =
      [{ emptyTab with endpoints := [negDelayEndpoint] }] ∧
    validateEndpoints (fun _ => true)
      ([negDelayEndpoint].map (fun e => { e with delay := (-5 : Int) })) =
      validateEndpoints (fun _ => true) [negDelayEndpoint] := by
  have h := claim_C5 (fun _ => true) [negDelayEndpoint] (-5) "e2" negDelayForm
    [emptyTab] "t1" (by decide) (by decide) (by decide) (by decide) (Or.inl (by decide))
  refine ⟨by decide, by decide, ?_, h.1⟩
  rw [h.2]
  decide

/-- Claim C7: a successful `handleAdd` appends the new endpoint after all
existing endpoints of the active tab, leaving the relative order of existing
endpoints (and every other tab) unchanged; no duplicate-rejection exists —
nothing in the acceptance condition mentions the existing endpoints, so a
(method, path) pair equal to an existing endpoint's is accepted. -/
theorem claim_C7 (jsonOk : String → Bool) (newId : String) (form : AddForm)
    (tabs : List Tab) (activeTabId : String)
    (hpath : form.path ≠ "") (hslash : startsWithSlash form.path = true)
    (hlo : 100 ≤ form.status) (hhi : form.status ≤ 599)
    (hresp : trimString form.response = "" ∨ jsonOk form.response = true) :
    handleAdd jsonOk newId form tabs activeTabId =
      tabs.map (fun tab =>
        if tab.id = activeTabId then
          { tab with endpoints := tab.endpoints ++
              [{ id := newId
                 method := form.method
                 path := form.path
                 status := form.status
                 delay := form.delay
                 response := form.response }] }
        else tab) :=
  handleAdd_valid jsonOk newId form tabs activeTabId hpath hslash hlo hhi hresp

def dupForm : AddForm :=
  { method := "GET", path := "/api/users", status := 201, delay := 5, response := "" }

theorem claim_C7_witness :
    dupForm.method = sampleEndpoint.method ∧ dupForm.path = sampleEndpoint.path ∧
    handleAdd (fun _ => true) "n2" dupForm [sampleTab] "t1" =
      [{ sampleTab with endpoints := sampleTab.endpoints ++
          [{ id := "n2"
             method := "GET"
             path := "/api/users"
             status := 201
             delay := 5
             response := "" }] }] := by
  refine ⟨rfl, rfl, ?_⟩
  rw [claim_C7 (fun _ => true) "n2" dupForm [sampleTab] "t1" (by decide) (by decide)
    (by decide) (by decide) (Or.inl (by decide))]
  decide

/-- Claim C6: starting from a state where at most one tab is marked running,
the `onServerStateChange` handler keeps at most one tab marked running (for
either flag value), and after `onServerStateChange(true)` a tab is marked
running exactly when it is the active tab. -/
theorem claim_C6 (tabs : List Tab) (activeTabId : String) (b : Bool)
    (hids : (tabs.map Tab.id).Nodup)
    (hone : tabs.countP (fun t => t.isServerRunning) ≤ 1) :
    (onServerStateChange b tabs activeTabId).countP (fun t => t.isServerRunning) ≤ 1 ∧
    ∀ t ∈ onServerStateChange true tabs activeTabId,
      t.isServerRunning = true ↔ t.id = activeTabId := by
  constructor
  · unfold onServerStateChange
    rw [List.countP_map]
    cases b
    · refine le_trans (List.countP_mono_left ?_) hone
      intro t ht h
      by_cases hid : t.id = activeTabId
      · rw [Function.comp_apply, if_pos hid] at h
        simp at h
      · rw [Function.comp_apply, if_neg hid] at h
        simpa using h
    · have hcongr : List.countP
          ((fun t => t.isServerRunning) ∘ fun tab =>
            if tab.id = activeTabId then { tab with isServerRunning := true }
            else { tab with isServerRunning := if true then false else tab.isServerRunning })
          tabs = List.countP (fun t => t.id == activeTabId) tabs := by
        apply List.countP_congr
        intro t ht
        by_cases hid : t.id = activeTabId <;> simp [Function.comp, hid]
      rw [hcongr]
      have hcount : List.countP (fun t => t.id == activeTabId) tabs =
          List.count activeTabId (tabs.map Tab.id) := by
        rw [List.count_eq_countP, List.countP_map]
        rfl
      rw [hcount]
      exact List.nodup_iff_count_le_one.mp hids activeTabId
  · intro t ht
    unfold onServerStateChange at ht
    rw [List.mem_map] at ht
    obtain ⟨u, hu, rfl⟩ := ht
    by_cases hid : u.id = activeTabId <;> simp [hid]

def runTabA : Tab :=
  { id := "t1"
    name := "A"
    endpoints := []
    settings := sampleSettings
    tlsConfig := none
    isServerRunning := true }

def runTabB : Tab :=
  { id := "t2"
    name := "B"
    endpoints := []
    settings := sampleSettings
    tlsConfig := none
    isServerRunning := false }

theorem claim_C6_witness :
    ([runTabA, runTabB].map Tab.id).Nodup ∧
    [runTabA, runTabB].countP (fun t => t.isServerRunning) ≤ 1 ∧
    (onServerStateChange true [runTabA, runTabB] "t2").countP
      (fun t => t.isServerRunning) ≤ 1 :=
  ⟨by decide, by decide,
    (claim_C6 [runTabA, runTabB] "t2" true (by decide) (by decide)).1⟩

/-- Claim C10: `handleDelete` removes exactly the endpoints carrying the
given id from the active tab (the remaining endpoints form the filter by
`e.id !== id`, a sublist of the original, so their relative order is
preserved and none with the id survives), and every other tab — and every
other field of the active tab — is returned unchanged. -/
theorem claim_C10 (eid : String) (pre post : List Tab) (t : Tab)
    (hpre : pre.all (fun u => u.id != t.id) = true)
    (hpost : post.all (fun u => u.id != t.id) = true) :
    handleDelete eid (pre ++ t :: post) t.id =
      pre ++ { t with endpoints := t.endpoints.filter (fun e => e.id != eid) } :: post ∧
    (t.endpoints.filter (fun e => e.id != eid)).Sublist t.endpoints ∧
    (t.endpoints.filter (fun e => e.id != eid)).countP (fun e => e.id == eid) = 0 := by
  refine ⟨?_, List.filter_sublist _, ?_⟩
  · have hpre' : ∀ u ∈ pre, u.id ≠ t.id := by
      intro u hu
      have := List.all_eq_true.mp hpre u hu
      simpa using this
    have hpost' : ∀ u ∈ post, u.id ≠ t.id := by
      intro u hu
      have := List.all_eq_true.mp hpost u hu
      simpa using this
    unfold handleDelete
    rw [List.map_append, List.map_cons]
    congr 1
    · calc pre.map (fun tab =>
            if tab.id = t.id then
              { tab with endpoints := tab.endpoints.filter (fun e => e.id != eid) }
            else tab)
          = pre.map id := List.map_congr_left (fun u hu => if_neg (hpre' u hu))
        _ = pre := List.map_id pre
    · congr 1
      · rw [if_pos rfl]
      · calc post.map (fun tab =>
              if tab.id = t.id then
                { tab with endpoints := tab.endpoints.filter (fun e => e.id != eid) }
              else tab)
            = post.map id := List.map_congr_left (fun u hu => if_neg (hpost' u hu))
          _ = post := List.map_id post
  · rw [List.countP_eq_zero]
    intro e he
    rw [List.mem_filter] at he
    simpa using he.2

theorem claim_C10_witness :
    [runTabB].all (fun u => u.id != sampleTab.id) = true ∧
    handleDelete "e1" ([] ++ sampleTab :: [runTabB]) sampleTab.id =
      [] ++ { sampleTab with endpoints := [] } :: [runTabB] := by
  have h := claim_C10 "e1" [] [runTabB] sampleTab (by decide) (by decide)
  refine ⟨by decide, ?_⟩
  rw [h.1]
  decide

/-- Claim C8, counterexample: in the Sidebar actually mounted by App.tsx
(src/unnamed/part_000) the Start Server control is not made unavailable by
TLS state — with the server stopped it is enabled even when TLS is on and no
TLS configuration exists — although the legacy Sidebar variant
(src/unnamed/part_001) does disable it and the spec-modelled backend start
does fail with a TLS configuration failure leaving `{running:false}`. -/
theorem claim_C8_cex :
    startDisabledCurrent false = false ∧
    startDisabledLegacy true false = true ∧
    startServer true { running := false, tlsConfig := none } =
      ({ running := false, tlsConfig := none },
        Except.error "TLS configuration failure") :=
  ⟨rfl, rfl, rfl⟩

/-- Claim C8, amended: a start issued with TLS enabled and no TlsConfig
results in a TLS configuration failure with the reported status remaining
`{running:false}` (spec-modelled backend), and on that failure the current
Sidebar reports the tab as not running through `onServerStateChange(false)`;
the Start button, however, is disabled only while the server is running —
the `enableTls && !tlsConfigured` guard exists only in the legacy Sidebar
variant. -/
theorem claim_C8 (r : Bool) (msg : String) :
    (startServer true { running := r, tlsConfig := none }).1.running = false ∧
    (startServer true { running := r, tlsConfig := none }).2 =
      Except.error "TLS configuration failure" ∧
    handleStartServerUiRunning (Except.error msg) = false ∧
    startDisabledCurrent r = r ∧
    startDisabledLegacy true false = true :=
  ⟨rfl, rfl, rfl, rfl, rfl⟩

/-- Claim C9: tab names stay pairwise distinct — `handleNewProject` picks
`"Untitled"` or the smallest-numbered unused `"Untitled_n"` and appends a
tab with that fresh name, `handleLoadProject` suffixes the loaded project's
name with `" (n)"` until it collides with no tab, and `handleNameSubmit`
refuses a rename that would duplicate another tab's name. -/
theorem claim_C9 (jsonOk : String → Bool) (p : ProjectData)
    (newTabId tabId editingName : String) (st : AppState)
    (hnames : (st.tabs.map Tab.name).Nodup)
    (hids : (st.tabs.map Tab.id).Nodup) :
    ((handleNewProject newTabId st).tabs.map Tab.name).Nodup ∧
    ((st.tabs.map Tab.name).contains "Untitled" = false →
      handleNewProjectName (st.tabs.map Tab.name) = "Untitled") ∧
    ((st.tabs.map Tab.name).contains "Untitled" = true →
      ∃ m, 1 ≤ m ∧
        handleNewProjectName (st.tabs.map Tab.name) = "Untitled_" ++ Nat.repr m ∧
        (st.tabs.map Tab.name).contains ("Untitled_" ++ Nat.repr m) = false ∧
        ∀ j, 1 ≤ j → j < m →
          (st.tabs.map Tab.name).contains ("Untitled_" ++ Nat.repr j) = true) ∧
    ((handleLoadProject jsonOk (some p) newTabId st).1.tabs.map Tab.name).Nodup ∧
    ((handleNameSubmit st.tabs tabId editingName).map Tab.name).Nodup := by
  obtain ⟨hfree, hfresh_new, htaken⟩ := handleNewProjectName_spec (st.tabs.map Tab.name)
  refine ⟨?_, hfree, htaken, ?_, handleNameSubmit_nodup st.tabs tabId editingName hids hnames⟩
  · show ((st.tabs ++ [_]).map Tab.name).Nodup
    rw [List.map_append, List.map_cons, List.map_nil]
    exact nodup_append_fresh hnames (not_mem_of_contains_false hfresh_new)
  · show ((if validateEndpoints jsonOk p.endpoints = false then (st, false)
      else _).1.tabs.map Tab.name).Nodup
    by_cases hval : validateEndpoints jsonOk p.endpoints = false
    · rw [if_pos hval]
      exact hnames
    · rw [if_neg hval]
      rw [List.map_append, List.map_cons, List.map_nil]
      exact nodup_append_fresh hnames
        (not_mem_of_contains_false (loadProjectName_fresh (st.tabs.map Tab.name) p.name))

def namedState : AppState := { tabs := [runTabA, runTabB], activeTabId := "t1" }

theorem claim_C9_witness :
    (namedState.tabs.map Tab.name).Nodup ∧
    (namedState.tabs.map Tab.id).Nodup ∧
    ((handleNewProject "9" namedState).tabs.map Tab.name).Nodup ∧
    ((handleNameSubmit namedState.tabs "t1" "B").map Tab.name).Nodup := by
  have h := claim_C9 (fun _ => true) sampleProject "9" "t1" "B" namedState
    (by decide) (by decide)
  exact ⟨by decide, by decide, h.1, h.2.2.2.2⟩

end FakeApi
